import Mathlib

/-!
Shallow embedding of the core logic of `src/app.py` (Wise Decision Helper):
the qualitative decision classifier, the bucket-percentage normalizer of the
money-plan section, the Python-dict construction used to collapse duplicate
bucket labels, and (modelled from the spec, since it is absent from `src/`)
the greedy budget allocator.  Machine floats of the source carry only values
from a small exact set (multiples of 0.5, user-entered percentages, dollar
amounts), so they are embedded as rationals.
-/

namespace WiseDecision

/-! ## Qualitative classifier (`map_answer`, `classify_decision`) -/

/-- Verdict string returned by `classify_decision` on a critical fail. -/
def rejectMsg : String :=
  "🚫 Likely *No* — something important is off. Pray, wait, or adjust the plan."

/-- Verdict string returned by `classify_decision` on a strong yes. -/
def acceptMsg : String :=
  "✅ Strong *Yes* — green light with wisdom and stewardship."

/-- Verdict string returned by `classify_decision` in the in-between case. -/
def deferMsg : String :=
  "🟡 *Wait / Refine* — good pieces are here, but something needs clarity."

/-- Embedding of `map_answer` of `src/app.py`: map a radio answer to a numeric
weight.  Any string other than `"Yes"` and `"Unsure"` falls through to `0.0`. -/
def map_answer (val : String) : ℚ :=
  if val = "Yes" then 1
  else if val = "Unsure" then 1/2
  else 0

/-- Embedding of `classify_decision` of `src/app.py`.  The Python `dict`
argument is embedded as an association list; `scores.get(k, 0)` becomes
`(lookup k).getD 0` and `sum(scores.values())` the sum of second
components. -/
def classify_decision (scores : List (String × ℚ)) : String :=
  let god := (scores.lookup "god_authored").getD 0
  let fin := (scores.lookup "financial_sense").getD 0
  let total := (scores.map Prod.snd).sum
  if god = 0 ∨ fin = 0 then rejectMsg
  else if 7/2 ≤ total then acceptMsg
  else deferMsg

/-- The `scores` dict exactly as the page builds it (lines 164–169 of
`src/app.py`): the four radio answers mapped through `map_answer`, in
insertion order. -/
def appScores (q_god q_want q_future q_fin : String) : List (String × ℚ) :=
  [("god_authored", map_answer q_god),
   ("want", map_answer q_want),
   ("future_good", map_answer q_future),
   ("financial_sense", map_answer q_fin)]

theorem classify_appScores (a b c d : String) :
    classify_decision (appScores a b c d) =
      (if map_answer a = 0 ∨ map_answer d = 0 then rejectMsg
       else if 7/2 ≤ map_answer a + (map_answer b + (map_answer c + (map_answer d + 0)))
         then acceptMsg
       else deferMsg) := rfl

theorem msgs_distinct :
    rejectMsg ≠ acceptMsg ∧ rejectMsg ≠ deferMsg ∧ acceptMsg ≠ deferMsg := by
  refine ⟨?_, ?_, ?_⟩ <;> decide

/-! ## Money-plan bucket normalizer -/

/-- Rounding of a rational to the nearest integer, with ties going to the
even integer: the behavior of Python's built-in `round` described at the
decimal level. -/
def pyRoundInt (q : ℚ) : ℤ :=
  if q - (⌊q⌋ : ℚ) < 1/2 then ⌊q⌋
  else if 1/2 < q - (⌊q⌋ : ℚ) then ⌊q⌋ + 1
  else if ⌊q⌋ % 2 = 0 then ⌊q⌋ else ⌊q⌋ + 1

/-- Python's `round(q, ndigits)` for a non-negative digit count. -/
def pyRound (q : ℚ) (ndigits : ℕ) : ℚ :=
  (pyRoundInt (q * (10 : ℚ) ^ ndigits) : ℚ) / (10 : ℚ) ^ ndigits

/-- One row appended by the Generate Money Plan loop (lines 236–248 of
`src/app.py`).  `share` is the intermediate `share = pct / total_raw_pct`
of the loop body; `normalizedDisplay` is the `"Normalized %"` column
`round(share * 100, 1)` and `plannedAmount` the `"Planned Amount ($)"`
column `round(amount * share, 2)`. -/
structure PlanRow where
  bucket : String
  targetPct : ℚ
  share : ℚ
  normalizedDisplay : ℚ
  plannedAmount : ℚ
deriving Repr, DecidableEq

/-- Embedding of `total_raw_pct` (line 223 of `src/app.py`): the sum of the
non-null raw percentages. -/
def total_raw_pct (bucket_pcts : List (String × Option ℚ)) : ℚ :=
  (bucket_pcts.filterMap Prod.snd).sum

/-- The row the loop body builds for a non-null bucket, given the amount and
the raw-percentage total `T`. -/
def mkPlanRow (amount T : ℚ) (bucket : String) (pct : ℚ) : PlanRow :=
  { bucket := bucket
    targetPct := pct
    share := pct / T
    normalizedDisplay := pyRound (pct / T * 100) 1
    plannedAmount := pyRound (amount * (pct / T)) 2 }

/-- The Generate Money Plan loop with the raw-percentage total `T` fixed:
null percentages are skipped (`if pct is None: continue`), every other
bucket contributes one row, in iteration order. -/
def planRowsAux (amount T : ℚ) : List (String × Option ℚ) → List PlanRow
  | [] => []
  | (_, none) :: rest => planRowsAux amount T rest
  | (b, some pct) :: rest => mkPlanRow amount T b pct :: planRowsAux amount T rest

/-- The rows produced by the Generate Money Plan loop (lines 235–248 of
`src/app.py`). -/
def planRows (amount : ℚ) (bucket_pcts : List (String × Option ℚ)) : List PlanRow :=
  planRowsAux amount (total_raw_pct bucket_pcts) bucket_pcts

/-- Validation message of line 226 of `src/app.py`. -/
def planErrorMsg : String :=
  "Set at least one bucket to a percentage above 0 to generate a plan."

/-- The `if total_raw_pct <= 0: st.error(...) else: ...` branch of
lines 225–248 of `src/app.py`: a validation error and no rows when the
non-null raw percentages sum to zero or below, otherwise the plan rows. -/
def moneyPlan (amount : ℚ) (bucket_pcts : List (String × Option ℚ)) :
    Except String (List PlanRow) :=
  if total_raw_pct bucket_pcts ≤ 0 then Except.error planErrorMsg
  else Except.ok (planRows amount bucket_pcts)

/-- The `default_alloc` seed table of lines 196–203 of `src/app.py`. -/
def default_alloc : List (String × Option ℚ) :=
  [("Tithe / Giving", some 10),
   ("Blessing Others (gifts, generosity)", some 5),
   ("Debt / Obligations", some 20),
   ("Savings / Future (emergency, investing)", some 25),
   ("Essentials Upgrade (e.g., work wardrobe)", some 20),
   ("Pure Joy / Fun", some 20)]

/-! ## Python-dict construction (`dict(zip(labels, percents))`, line 221) -/

/-- A single Python-dict assignment `d[k] = v`: if the key is present its
value is replaced in place (first occurrence, which is the only one under
the dict invariant), otherwise the pair is appended at the end. -/
def dictInsert : List (String × Option ℚ) → String → Option ℚ → List (String × Option ℚ)
  | [], k, v => [(k, v)]
  | (a, b) :: d, k, v => if a = k then (k, v) :: d else (a, b) :: dictInsert d k v

/-- Embedding of `dict(zip(labels, percents))` (line 221 of `src/app.py`):
insert the (label, percent) rows one after the other into an initially
empty dict.  A repeated label keeps its first position but ends up with
the value of its last occurrence, as in Python. -/
def buildDict (rows : List (String × Option ℚ)) : List (String × Option ℚ) :=
  rows.foldl (fun d p => dictInsert d p.1 p.2) []

/-- The bucket dict and plan as the page computes them from the raw editor
rows: first collapse into a dict, then run the normalizer on it. -/
def appMoneyPlan (amount : ℚ) (rows : List (String × Option ℚ)) :
    Except String (List PlanRow) :=
  moneyPlan amount (buildDict rows)

/-! ## Greedy allocator (spec §4.2; absent from `src/`) -/

/-- Modelled from the spec: the scored option rows of §4.2 and §6 (name,
cost and composite score); the Greedy Allocator itself is not present
under `src/`, only the spec describes it. -/
structure ScoredRow where
  name : String
  cost : ℚ
  score : ℚ
deriving Repr, DecidableEq

/-- Modelled from the spec: the three disjoint allocation tags of §4.2
(Skip for non-positive cost, Fund-Now, Defer). -/
inductive AllocTag where
  | skip
  | fundNow
  | deferred
deriving Repr, DecidableEq

/-- Modelled from the spec: the walk of §4.2 over the sorted rows with a
running `spent` accumulator — cost ≤ 0 is Skip, `spent + cost ≤ budget`
is Fund-Now and adds the cost to `spent`, anything else is Defer. -/
def allocGo (budget : ℚ) (spent : ℚ) : List ScoredRow → List (ScoredRow × AllocTag) × ℚ
  | [] => ([], spent)
  | r :: rs =>
    if r.cost ≤ 0 then
      let t := allocGo budget spent rs
      ((r, AllocTag.skip) :: t.1, t.2)
    else if spent + r.cost ≤ budget then
      let t := allocGo budget (spent + r.cost) rs
      ((r, AllocTag.fundNow) :: t.1, t.2)
    else
      let t := allocGo budget spent rs
      ((r, AllocTag.deferred) :: t.1, t.2)

/-- Modelled from the spec: §4.2 sorts the rows by score descending, stable
on ties, before the walk. -/
def sortByScoreDesc (rows : List ScoredRow) : List ScoredRow :=
  rows.mergeSort (fun a b => decide (b.score ≤ a.score))

/-- Modelled from the spec: the Greedy Allocator of §4.2 — sort by score
descending, then walk with `spent` starting at 0. -/
def allocate (rows : List ScoredRow) (wantsBudget : ℚ) :
    List (ScoredRow × AllocTag) × ℚ :=
  allocGo wantsBudget 0 (sortByScoreDesc rows)

/-- The total cost of the rows tagged Fund-Now. -/
def fundNowCost : List (ScoredRow × AllocTag) → ℚ
  | [] => 0
  | (r, AllocTag.fundNow) :: ts => r.cost + fundNowCost ts
  | _ :: ts => fundNowCost ts

/-! ## Helper lemmas about rounding and the plan rows -/

theorem pyRoundInt_abs (q : ℚ) : |((pyRoundInt q : ℤ) : ℚ) - q| ≤ 1/2 := by
  have h0 : (⌊q⌋ : ℚ) ≤ q := Int.floor_le q
  have h1 : q < (⌊q⌋ : ℚ) + 1 := Int.lt_floor_add_one q
  unfold pyRoundInt
  split_ifs with hlt hgt hev
  · rw [abs_sub_comm, abs_of_nonneg (by linarith)]
    linarith
  · push_cast
    rw [abs_of_nonneg (by linarith)]
    linarith
  · have heq : q - (⌊q⌋ : ℚ) = 1/2 := le_antisymm (not_lt.mp hgt) (not_lt.mp hlt)
    rw [abs_sub_comm, abs_of_nonneg (by linarith)]
    linarith
  · have heq : q - (⌊q⌋ : ℚ) = 1/2 := le_antisymm (not_lt.mp hgt) (not_lt.mp hlt)
    push_cast
    rw [abs_of_nonneg (by linarith)]
    linarith

theorem pyRound_two_abs (q : ℚ) : |pyRound q 2 - q| ≤ 1/200 := by
  have h := pyRoundInt_abs (q * (10 : ℚ) ^ 2)
  unfold pyRound
  have hrw : (pyRoundInt (q * (10 : ℚ) ^ 2) : ℚ) / (10 : ℚ) ^ 2 - q =
      ((pyRoundInt (q * (10 : ℚ) ^ 2) : ℚ) - q * (10 : ℚ) ^ 2) / (10 : ℚ) ^ 2 := by
    ring
  rw [hrw, abs_div, abs_of_pos (by norm_num : (0 : ℚ) < (10 : ℚ) ^ 2)]
  calc |(pyRoundInt (q * (10 : ℚ) ^ 2) : ℚ) - q * (10 : ℚ) ^ 2| / (10 : ℚ) ^ 2
      ≤ (1/2) / (10 : ℚ) ^ 2 := by
        apply div_le_div_of_nonneg_right h
        norm_num
    _ = 1/200 := by norm_num

theorem planRowsAux_mem (amount T : ℚ) (l : List (String × Option ℚ)) :
    ∀ r ∈ planRowsAux amount T l,
      (r.bucket, some r.targetPct) ∈ l ∧ r.share = r.targetPct / T ∧
      r.plannedAmount = pyRound (amount * (r.targetPct / T)) 2 := by
  induction l with
  | nil => intro r hr; simp [planRowsAux] at hr
  | cons p rest ih =>
    intro r hr
    rcases p with ⟨b, _ | pct⟩
    · have h := ih r (by simpa [planRowsAux] using hr)
      exact ⟨List.mem_cons_of_mem _ h.1, h.2⟩
    · rw [show planRowsAux amount T ((b, some pct) :: rest) =
          mkPlanRow amount T b pct :: planRowsAux amount T rest from rfl] at hr
      rcases List.mem_cons.mp hr with rfl | hr
      · exact ⟨List.mem_cons_self _ _, rfl, rfl⟩
      · have h := ih r hr
        exact ⟨List.mem_cons_of_mem _ h.1, h.2⟩

theorem planRowsAux_length (amount T : ℚ) (l : List (String × Option ℚ)) :
    (planRowsAux amount T l).length = (l.filterMap Prod.snd).length := by
  induction l with
  | nil => rfl
  | cons p rest ih =>
    rcases p with ⟨b, _ | pct⟩ <;> simp [planRowsAux, List.filterMap_cons, ih]

theorem planRowsAux_share_map (amount T : ℚ) (l : List (String × Option ℚ)) :
    (planRowsAux amount T l).map PlanRow.share =
      (l.filterMap Prod.snd).map (fun p => p / T) := by
  induction l with
  | nil => rfl
  | cons p rest ih =>
    rcases p with ⟨b, _ | pct⟩ <;> simp [planRowsAux, List.filterMap_cons, ih, mkPlanRow]

theorem planRowsAux_planned_map (amount T : ℚ) (l : List (String × Option ℚ)) :
    (planRowsAux amount T l).map PlanRow.plannedAmount =
      ((l.filterMap Prod.snd).map (fun p => amount * (p / T))).map (fun x => pyRound x 2) := by
  induction l with
  | nil => rfl
  | cons p rest ih =>
    rcases p with ⟨b, _ | pct⟩ <;> simp [planRowsAux, List.filterMap_cons, ih, mkPlanRow]

theorem sum_map_div (l : List ℚ) (T : ℚ) : (l.map (fun p => p / T)).sum = l.sum / T := by
  induction l with
  | nil => simp
  | cons x xs ih => simp [ih, add_div]

theorem sum_map_mul_div (a T : ℚ) (l : List ℚ) :
    (l.map (fun p => a * (p / T))).sum = a * (l.sum / T) := by
  induction l with
  | nil => simp
  | cons x xs ih =>
    simp only [List.map_cons, List.sum_cons, List.sum_cons, ih]
    ring

theorem sum_round_err (l : List ℚ) :
    |(l.map (fun x => pyRound x 2)).sum - l.sum| ≤ (l.length : ℚ) * (1/200) := by
  induction l with
  | nil => simp
  | cons x xs ih =>
    simp only [List.map_cons, List.sum_cons, List.length_cons]
    have hsplit : pyRound x 2 + (xs.map (fun x => pyRound x 2)).sum - (x + xs.sum) =
        (pyRound x 2 - x) + ((xs.map (fun x => pyRound x 2)).sum - xs.sum) := by
      ring
    rw [hsplit]
    calc |(pyRound x 2 - x) + ((xs.map (fun x => pyRound x 2)).sum - xs.sum)|
        ≤ |pyRound x 2 - x| + |(xs.map (fun x => pyRound x 2)).sum - xs.sum| := abs_add _ _
      _ ≤ 1/200 + (xs.length : ℚ) * (1/200) := add_le_add (pyRound_two_abs x) ih
      _ = ((xs.length : ℚ) + 1) * (1/200) := by ring
      _ = (((xs.length + 1 : ℕ)) : ℚ) * (1/200) := by push_cast; ring

/-! ## Claim C1: the two gate dimensions force the Reject verdict -/

/-- C1: for every answer set over the four dimensions, if `god_authored` is
answered "No" or `financial_sense` is answered "No" (so its mapped weight
is 0), `classify_decision` returns the Reject verdict, regardless of the
other dimensions. -/
theorem gate_no_forces_reject (q_god q_want q_future q_fin : String)
    (h : q_god = "No" ∨ q_fin = "No") :
    classify_decision (appScores q_god q_want q_future q_fin) = rejectMsg := by
  have h0 : map_answer "No" = 0 := by with_unfolding_all decide
  rcases h with rfl | rfl
  · simp [classify_appScores, h0]
  · simp [classify_appScores, h0]

/-- Witness for C1 at the concrete answers (No, Yes, Yes, Yes). -/
theorem gate_no_forces_reject_witness :
    ("No" = "No" ∨ "Yes" = "No") ∧
      classify_decision (appScores "No" "Yes" "Yes" "Yes") = rejectMsg :=
  ⟨Or.inl rfl, gate_no_forces_reject "No" "Yes" "Yes" "Yes" (Or.inl rfl)⟩

/-! ## Claim C2: away from the gates, the verdict is the 3.5 threshold -/

/-- C2: whenever neither gate dimension maps to weight 0,
`classify_decision` returns the Accept verdict exactly when the sum of the
four mapped weights is at least 3.5, and the Defer-for-clarity verdict
otherwise; in particular four "Yes" answers give Accept and four "Unsure"
answers give Defer-for-clarity. -/
theorem threshold_classifies (q_god q_want q_future q_fin : String)
    (hg : map_answer q_god ≠ 0) (hf : map_answer q_fin ≠ 0) :
    (classify_decision (appScores q_god q_want q_future q_fin) = acceptMsg ↔
       7/2 ≤ map_answer q_god + map_answer q_want + map_answer q_future + map_answer q_fin) ∧
    (classify_decision (appScores q_god q_want q_future q_fin) = deferMsg ↔
       map_answer q_god + map_answer q_want + map_answer q_future + map_answer q_fin < 7/2) ∧
    classify_decision (appScores "Yes" "Yes" "Yes" "Yes") = acceptMsg ∧
    classify_decision (appScores "Unsure" "Unsure" "Unsure" "Unsure") = deferMsg := by
  have hyes : classify_decision (appScores "Yes" "Yes" "Yes" "Yes") = acceptMsg := by
    with_unfolding_all decide
  have huns : classify_decision (appScores "Unsure" "Unsure" "Unsure" "Unsure") = deferMsg := by
    with_unfolding_all decide
  have hsum : map_answer q_god + (map_answer q_want + (map_answer q_future +
      (map_answer q_fin + 0))) =
      map_answer q_god + map_answer q_want + map_answer q_future + map_answer q_fin := by
    ring
  rw [classify_appScores q_god q_want q_future q_fin, hsum, if_neg (not_or.mpr ⟨hg, hf⟩)]
  by_cases hS : 7/2 ≤ map_answer q_god + map_answer q_want + map_answer q_future +
      map_answer q_fin
  · rw [if_pos hS]
    exact ⟨iff_of_true rfl hS, iff_of_false msgs_distinct.2.2 (not_lt.mpr hS), hyes, huns⟩
  · rw [if_neg hS]
    exact ⟨iff_of_false (fun hEq => msgs_distinct.2.2 hEq.symm) hS,
      iff_of_true rfl (lt_of_not_le hS), hyes, huns⟩

/-- Witness for C2 at the concrete answers (Yes, Unsure, No, Yes). -/
theorem threshold_classifies_witness :
    map_answer "Yes" ≠ 0 ∧ map_answer "Yes" ≠ 0 ∧
    ((classify_decision (appScores "Yes" "Unsure" "No" "Yes") = acceptMsg ↔
       7/2 ≤ map_answer "Yes" + map_answer "Unsure" + map_answer "No" + map_answer "Yes") ∧
     (classify_decision (appScores "Yes" "Unsure" "No" "Yes") = deferMsg ↔
       map_answer "Yes" + map_answer "Unsure" + map_answer "No" + map_answer "Yes" < 7/2) ∧
     classify_decision (appScores "Yes" "Yes" "Yes" "Yes") = acceptMsg ∧
     classify_decision (appScores "Unsure" "Unsure" "Unsure" "Unsure") = deferMsg) :=
  ⟨by with_unfolding_all decide, by with_unfolding_all decide,
    threshold_classifies "Yes" "Unsure" "No" "Yes"
      (by with_unfolding_all decide) (by with_unfolding_all decide)⟩

/-! ## Claim C8: `map_answer` is total and unrecognized gate answers reject -/

/-- C8: every input string other than exactly "Yes" and exactly "Unsure"
(not only the literal "No") maps to weight 0, so an unrecognized or empty
answer on one of the gate dimensions forces the Reject verdict. -/
theorem map_answer_unrecognized_rejects (s : String)
    (h1 : s ≠ "Yes") (h2 : s ≠ "Unsure") :
    map_answer s = 0 ∧
    (∀ b c d, classify_decision (appScores s b c d) = rejectMsg) ∧
    (∀ a b c, classify_decision (appScores a b c s) = rejectMsg) := by
  have h0 : map_answer s = 0 := by simp [map_answer, h1, h2]
  exact ⟨h0, fun b c d => by simp [classify_appScores, h0],
    fun a b c => by simp [classify_appScores, h0]⟩

/-- Witness for C8 at the empty answer string. -/
theorem map_answer_unrecognized_rejects_witness :
    ("" : String) ≠ "Yes" ∧ ("" : String) ≠ "Unsure" ∧
    map_answer "" = 0 ∧
    classify_decision (appScores "" "Yes" "Yes" "Yes") = rejectMsg ∧
    classify_decision (appScores "Yes" "Yes" "Yes" "") = rejectMsg := by
  have h := map_answer_unrecognized_rejects "" (by decide) (by decide)
  exact ⟨by decide, by decide, h.1, h.2.1 "Yes" "Yes" "Yes", h.2.2 "Yes" "Yes" "Yes"⟩

/-! ## Claim C9: a missing gate key defaults to 0 and rejects -/

/-- C9: for every scores mapping in which the key `god_authored` or the key
`financial_sense` is absent, the missing gate defaults to weight 0 through
`dict.get` and `classify_decision` returns the Reject verdict, whatever
the dimensions that are present hold. -/
theorem missing_gate_key_rejects (scores : List (String × ℚ))
    (h : scores.lookup "god_authored" = none ∨ scores.lookup "financial_sense" = none) :
    classify_decision scores = rejectMsg := by
  unfold classify_decision
  rcases h with h | h <;> simp [h]

/-- Witness for C9: a scores dict holding weight 1 on every present
dimension but no `god_authored` key. -/
theorem missing_gate_key_rejects_witness :
    (List.lookup "god_authored"
        [("want", (1 : ℚ)), ("future_good", 1), ("financial_sense", 1)] = none ∨
      List.lookup "financial_sense"
        [("want", (1 : ℚ)), ("future_good", 1), ("financial_sense", 1)] = none) ∧
    classify_decision [("want", (1 : ℚ)), ("future_good", 1), ("financial_sense", 1)] =
      rejectMsg :=
  ⟨Or.inl rfl,
    missing_gate_key_rejects [("want", 1), ("future_good", 1), ("financial_sense", 1)]
      (Or.inl rfl)⟩

/-! ## Claim C3: a non-positive raw-percentage sum is a validation error -/

/-- C3: for every bucket mapping and amount, when the sum of the non-null
raw percentages is at most 0, the normalizer reports the user-facing
validation message and produces no plan rows. -/
theorem nonpositive_total_errors (amount : ℚ) (bps : List (String × Option ℚ))
    (h : total_raw_pct bps ≤ 0) :
    moneyPlan amount bps = Except.error planErrorMsg := by
  unfold moneyPlan
  rw [if_pos h]

/-- Witness for C3: a mapping whose only non-null percentage is 0. -/
theorem nonpositive_total_errors_witness :
    total_raw_pct [("Pure Joy / Fun", some 0), ("Debt / Obligations", none)] ≤ 0 ∧
    moneyPlan 250 [("Pure Joy / Fun", some 0), ("Debt / Obligations", none)] =
      Except.error planErrorMsg :=
  ⟨by with_unfolding_all decide,
    nonpositive_total_errors 250 [("Pure Joy / Fun", some 0), ("Debt / Obligations", none)]
      (by with_unfolding_all decide)⟩

/-! ## Claim C4: per-bucket normalized share and rounded planned amount -/

/-- C4: for every bucket mapping whose non-null raw percentages have a
positive sum and every amount, the normalizer succeeds and outputs, for
every non-null bucket, a row with `share = rawPercent / sumOfRawPercents`
and `plannedAmount = round(amount * share, 2)`; null buckets are excluded
from both the sum and the output. -/
theorem plan_rows_formula (amount : ℚ) (bps : List (String × Option ℚ))
    (h : 0 < total_raw_pct bps) :
    moneyPlan amount bps = Except.ok (planRows amount bps) ∧
    (∀ r ∈ planRows amount bps,
      (r.bucket, some r.targetPct) ∈ bps ∧
      r.share = r.targetPct / total_raw_pct bps ∧
      r.plannedAmount = pyRound (amount * (r.targetPct / total_raw_pct bps)) 2) ∧
    (planRows amount bps).length = (bps.filterMap Prod.snd).length ∧
    total_raw_pct bps = (bps.filterMap Prod.snd).sum := by
  refine ⟨?_, planRowsAux_mem amount (total_raw_pct bps) bps,
    planRowsAux_length amount (total_raw_pct bps) bps, rfl⟩
  unfold moneyPlan
  rw [if_neg (not_le.mpr h)]

/-- Witness for C4 at amount 250 and raw percentages 30, null, 50. -/
theorem plan_rows_formula_witness :
    0 < total_raw_pct [("A", some 30), ("B", none), ("C", some 50)] ∧
    (moneyPlan 250 [("A", some 30), ("B", none), ("C", some 50)] =
        Except.ok (planRows 250 [("A", some 30), ("B", none), ("C", some 50)]) ∧
      (∀ r ∈ planRows 250 [("A", some 30), ("B", none), ("C", some 50)],
        (r.bucket, some r.targetPct) ∈ [("A", some 30), ("B", none), ("C", some 50)] ∧
        r.share = r.targetPct /
          total_raw_pct [("A", some 30), ("B", none), ("C", some 50)] ∧
        r.plannedAmount = pyRound (250 * (r.targetPct /
          total_raw_pct [("A", some 30), ("B", none), ("C", some 50)])) 2) ∧
      (planRows 250 [("A", some 30), ("B", none), ("C", some 50)]).length =
        ([("A", some 30), ("B", none), ("C", some 50)].filterMap Prod.snd).length ∧
      total_raw_pct [("A", some 30), ("B", none), ("C", some 50)] =
        ([("A", some 30), ("B", none), ("C", some 50)].filterMap Prod.snd).sum) :=
  ⟨by with_unfolding_all decide,
    plan_rows_formula 250 [("A", some 30), ("B", none), ("C", some 50)]
      (by with_unfolding_all decide)⟩

/-! ## Claim C5: the shares sum to 1 and the planned amounts to the amount -/

/-- C5: for every bucket mapping whose non-null raw percentages have a
positive sum, the normalized shares sum to 1 within 1e-6, and the planned
amounts sum to the amount within 0.01 per bucket of accumulated rounding
error. -/
theorem plan_sums (amount : ℚ) (bps : List (String × Option ℚ))
    (h : 0 < total_raw_pct bps) :
    |((planRows amount bps).map PlanRow.share).sum - 1| ≤ 1/1000000 ∧
    |((planRows amount bps).map PlanRow.plannedAmount).sum - amount| ≤
      ((planRows amount bps).length : ℚ) * (1/100) := by
  have hT : total_raw_pct bps ≠ 0 := ne_of_gt h
  constructor
  · have hshare : ((planRows amount bps).map PlanRow.share).sum = 1 := by
      rw [planRows, planRowsAux_share_map, sum_map_div]
      exact div_self hT
    rw [hshare]
    norm_num
  · have hmap := planRowsAux_planned_map amount (total_raw_pct bps) bps
    have hxs : ((bps.filterMap Prod.snd).map
        (fun p => amount * (p / total_raw_pct bps))).sum = amount := by
      rw [sum_map_mul_div]
      rw [show (bps.filterMap Prod.snd).sum = total_raw_pct bps from rfl]
      rw [div_self hT, mul_one]
    have herr := sum_round_err ((bps.filterMap Prod.snd).map
        (fun p => amount * (p / total_raw_pct bps)))
    rw [hxs] at herr
    rw [List.length_map] at herr
    rw [planRows, hmap]
    have hlen : (bps.filterMap Prod.snd).length = (planRows amount bps).length := by
      rw [planRows, planRowsAux_length]
    rw [hlen] at herr
    calc |(((bps.filterMap Prod.snd).map
            (fun p => amount * (p / total_raw_pct bps))).map (fun x => pyRound x 2)).sum -
          amount|
        ≤ ((planRows amount bps).length : ℚ) * (1/200) := herr
      _ ≤ ((planRows amount bps).length : ℚ) * (1/100) := by
          apply mul_le_mul_of_nonneg_left (by norm_num) (by positivity)

/-- Witness for C5 at amount 250 and raw percentages 30 and 50 (sum 80,
the non-100 scenario of spec §8). -/
theorem plan_sums_witness :
    0 < total_raw_pct [("A", some 30), ("C", some 50)] ∧
    (|((planRows 250 [("A", some 30), ("C", some 50)]).map PlanRow.share).sum - 1| ≤
        1/1000000 ∧
      |((planRows 250 [("A", some 30), ("C", some 50)]).map PlanRow.plannedAmount).sum -
          250| ≤
        ((planRows 250 [("A", some 30), ("C", some 50)]).length : ℚ) * (1/100)) :=
  ⟨by with_unfolding_all decide,
    plan_sums 250 [("A", some 30), ("C", some 50)] (by with_unfolding_all decide)⟩

/-! ## Claim C6: a non-positive amount is not rejected by the code -/

/-- C6 counterexample: with the default buckets and the non-positive amount
0, the program reports no validation error and the bucket plan is produced
(six rows), contradicting the claim that a validation error precedes any
allocation for a non-positive amount. -/
theorem zero_amount_plan_counterexample :
    moneyPlan 0 default_alloc = Except.ok (planRows 0 default_alloc) ∧
    (planRows 0 default_alloc).length = 6 := by
  constructor
  · unfold moneyPlan
    rw [if_neg (show ¬total_raw_pct default_alloc ≤ 0 by with_unfolding_all decide)]
  · with_unfolding_all decide

/-- C6 amended: the amount widget already bounds the amount below by 0, and
an amount of exactly 0 is accepted with no validation error — whenever the
bucket percentages pass their own check the plan is still produced, every
planned amount being 0. -/
theorem zero_amount_plan_produced (bps : List (String × Option ℚ))
    (h : 0 < total_raw_pct bps) :
    moneyPlan 0 bps = Except.ok (planRows 0 bps) ∧
    ∀ r ∈ planRows 0 bps, r.plannedAmount = 0 := by
  constructor
  · unfold moneyPlan
    rw [if_neg (not_le.mpr h)]
  · intro r hr
    have hmem := planRowsAux_mem 0 (total_raw_pct bps) bps r hr
    rw [hmem.2.2, zero_mul]
    show pyRound 0 2 = 0
    with_unfolding_all decide

/-- Witness for the amended C6 at the default buckets. -/
theorem zero_amount_plan_produced_witness :
    0 < total_raw_pct default_alloc ∧
    (moneyPlan 0 default_alloc = Except.ok (planRows 0 default_alloc) ∧
      ∀ r ∈ planRows 0 default_alloc, r.plannedAmount = 0) :=
  ⟨by with_unfolding_all decide,
    zero_amount_plan_produced default_alloc (by with_unfolding_all decide)⟩

/-! ## Claim C7: the Fund-Now items always fit inside the budget -/

theorem allocGo_spent_eq (budget : ℚ) (rs : List ScoredRow) :
    ∀ spent : ℚ,
      (allocGo budget spent rs).2 = spent + fundNowCost (allocGo budget spent rs).1 := by
  induction rs with
  | nil => intro spent; simp [allocGo, fundNowCost]
  | cons r rs ih =>
    intro spent
    by_cases h1 : r.cost ≤ 0
    · simp only [allocGo, if_pos h1, fundNowCost]
      exact ih spent
    · by_cases h2 : spent + r.cost ≤ budget
      · simp only [allocGo, if_neg h1, if_pos h2, fundNowCost]
        rw [ih (spent + r.cost)]
        ring
      · simp only [allocGo, if_neg h1, if_neg h2, fundNowCost]
        exact ih spent

theorem allocGo_spent_le (budget : ℚ) (rs : List ScoredRow) :
    ∀ spent : ℚ, spent ≤ budget → (allocGo budget spent rs).2 ≤ budget := by
  induction rs with
  | nil => intro spent hs; simpa [allocGo] using hs
  | cons r rs ih =>
    intro spent hs
    by_cases h1 : r.cost ≤ 0
    · simp only [allocGo, if_pos h1]
      exact ih spent hs
    · by_cases h2 : spent + r.cost ≤ budget
      · simp only [allocGo, if_neg h1, if_pos h2]
        exact ih (spent + r.cost) h2
      · simp only [allocGo, if_neg h1, if_neg h2]
        exact ih spent hs

/-- C7: for every sequence of scored option rows and every non-negative
budget ceiling, the sum of the costs of the Fund-Now items of the greedy
allocator is at most the budget ceiling: an item is marked Fund-Now only
when the running spend plus its cost still fits. -/
theorem fundNow_within_budget (rows : List ScoredRow) (wantsBudget : ℚ)
    (h : 0 ≤ wantsBudget) :
    fundNowCost (allocate rows wantsBudget).1 ≤ wantsBudget := by
  have h1 := allocGo_spent_eq wantsBudget (sortByScoreDesc rows) 0
  have h2 := allocGo_spent_le wantsBudget (sortByScoreDesc rows) 0 h
  unfold allocate
  linarith [h1, h2]

/-- Witness for C7: two rows against a budget of 10 — the higher-score row
of cost 7 is funded, the cost-5 row no longer fits. -/
theorem fundNow_within_budget_witness :
    (0 : ℚ) ≤ 10 ∧
    fundNowCost
        (allocate [{ name := "a", cost := 5, score := 1 },
                   { name := "b", cost := 7, score := 2 }] 10).1 ≤ 10 :=
  ⟨by norm_num,
    fundNow_within_budget
      [{ name := "a", cost := 5, score := 1 }, { name := "b", cost := 7, score := 2 }]
      10 (by norm_num)⟩

/-! ## Helper lemmas about the Python-dict embedding -/

theorem lookup_cons_self (a : String) (b : Option ℚ) (l : List (String × Option ℚ)) :
    List.lookup a ((a, b) :: l) = some b := by
  simp [List.lookup]

theorem lookup_cons_ne (a k : String) (b : Option ℚ) (l : List (String × Option ℚ))
    (h : k ≠ a) : List.lookup k ((a, b) :: l) = List.lookup k l := by
  simp [List.lookup, beq_eq_false_iff_ne.mpr h]

theorem lookup_append_cases (l1 l2 : List (String × Option ℚ)) (k : String) :
    (l1 ++ l2).lookup k =
      (match l1.lookup k with
       | some v => some v
       | none => l2.lookup k) := by
  induction l1 with
  | nil => simp [List.lookup]
  | cons p l1 ih =>
    rcases p with ⟨a, b⟩
    simp only [List.cons_append, List.lookup]
    cases hxa : (k == a)
    · exact ih
    · rfl

theorem lookup_eq_none_of_not_mem (d : List (String × Option ℚ)) (k : String)
    (h : k ∉ d.map Prod.fst) : d.lookup k = none := by
  induction d with
  | nil => rfl
  | cons p d ih =>
    rcases p with ⟨a, b⟩
    have hka : k ≠ a := by
      intro hEq
      exact h (by simp [hEq])
    rw [lookup_cons_ne a k b d hka]
    exact ih (fun hm => h (List.mem_cons_of_mem _ hm))

theorem lookup_dictInsert_self (d : List (String × Option ℚ)) (k : String) (v : Option ℚ) :
    (dictInsert d k v).lookup k = some v := by
  induction d with
  | nil => exact lookup_cons_self k v []
  | cons p d ih =>
    rcases p with ⟨a, b⟩
    by_cases hak : a = k
    · rw [show dictInsert ((a, b) :: d) k v = (k, v) :: d by simp [dictInsert, hak]]
      exact lookup_cons_self k v d
    · rw [show dictInsert ((a, b) :: d) k v = (a, b) :: dictInsert d k v by
        simp [dictInsert, hak]]
      rw [lookup_cons_ne a k b _ (fun hEq => hak hEq.symm)]
      exact ih

theorem lookup_dictInsert_ne (d : List (String × Option ℚ)) (k : String) (v : Option ℚ)
    (k' : String) (hne : k' ≠ k) :
    (dictInsert d k v).lookup k' = d.lookup k' := by
  induction d with
  | nil =>
    rw [show dictInsert [] k v = [(k, v)] from rfl, lookup_cons_ne k k' v [] hne]
  | cons p d ih =>
    rcases p with ⟨a, b⟩
    by_cases hak : a = k
    · subst hak
      rw [show dictInsert ((a, b) :: d) a v = (a, v) :: d by simp [dictInsert]]
      rw [lookup_cons_ne a k' v d hne, lookup_cons_ne a k' b d hne]
    · rw [show dictInsert ((a, b) :: d) k v = (a, b) :: dictInsert d k v by
        simp [dictInsert, hak]]
      by_cases hka' : k' = a
      · subst hka'
        rw [lookup_cons_self, lookup_cons_self]
      · rw [lookup_cons_ne a k' b _ hka', lookup_cons_ne a k' b _ hka']
        exact ih

theorem keys_dictInsert (d : List (String × Option ℚ)) (k : String) (v : Option ℚ) :
    (dictInsert d k v).map Prod.fst =
      (if k ∈ d.map Prod.fst then d.map Prod.fst else d.map Prod.fst ++ [k]) := by
  induction d with
  | nil => simp [dictInsert]
  | cons p d ih =>
    rcases p with ⟨a, b⟩
    by_cases hak : a = k
    · subst hak
      rw [show dictInsert ((a, b) :: d) a v = (a, v) :: d by simp [dictInsert]]
      simp
    · rw [show dictInsert ((a, b) :: d) k v = (a, b) :: dictInsert d k v by
        simp [dictInsert, hak]]
      have hka : k ≠ a := fun hEq => hak hEq.symm
      by_cases hk : k ∈ d.map Prod.fst
      · rw [List.map_cons, ih, if_pos hk, List.map_cons,
          if_pos (by simp [hk])]
      · rw [List.map_cons, ih, if_neg hk, List.map_cons,
          if_neg (by simp [hka, hk]), List.cons_append]

theorem nodupKeys_dictInsert (d : List (String × Option ℚ)) (k : String) (v : Option ℚ)
    (h : (d.map Prod.fst).Nodup) : ((dictInsert d k v).map Prod.fst).Nodup := by
  rw [keys_dictInsert]
  split_ifs with hk
  · exact h
  · rw [List.nodup_append]
    exact ⟨h, List.nodup_singleton k, by simpa [List.disjoint_singleton] using hk⟩

theorem buildDict_lookup_aux (k : String) (rows : List (String × Option ℚ)) :
    ∀ d : List (String × Option ℚ),
      ((rows.foldl (fun d p => dictInsert d p.1 p.2) d).lookup k) =
        (match rows.reverse.lookup k with
         | some v => some v
         | none => d.lookup k) := by
  induction rows with
  | nil => intro d; simp [List.lookup]
  | cons p rows ih =>
    intro d
    rcases p with ⟨a, b⟩
    simp only [List.foldl_cons]
    rw [ih (dictInsert d a b), List.reverse_cons, lookup_append_cases]
    by_cases hk : k = a
    · subst hk
      cases hrl : rows.reverse.lookup k
      · simp only []
        rw [show List.lookup k [(k, b)] = some b by simp [List.lookup]]
        exact lookup_dictInsert_self d k b
      · rfl
    · cases hrl : rows.reverse.lookup k
      · simp only []
        rw [show List.lookup k [(a, b)] = none by
          simp [List.lookup, beq_eq_false_iff_ne.mpr hk]]
        exact lookup_dictInsert_ne d a b k hk
      · rfl

theorem buildDict_lookup (rows : List (String × Option ℚ)) (k : String) :
    (buildDict rows).lookup k = rows.reverse.lookup k := by
  have h := buildDict_lookup_aux k rows []
  rw [buildDict, h]
  cases hrl : rows.reverse.lookup k
  · rfl
  · rfl

theorem buildDict_nodupKeys (rows : List (String × Option ℚ)) :
    ((buildDict rows).map Prod.fst).Nodup := by
  suffices h : ∀ (rs : List (String × Option ℚ)) (d : List (String × Option ℚ)),
      (d.map Prod.fst).Nodup →
      (((rs.foldl (fun d p => dictInsert d p.1 p.2) d).map Prod.fst).Nodup) by
    exact h rows [] (by simp)
  intro rs
  induction rs with
  | nil => intro d hd; simpa using hd
  | cons p rs ih =>
    intro d hd
    exact ih (dictInsert d p.1 p.2) (nodupKeys_dictInsert d p.1 p.2 hd)

theorem lookup_isSome_iff (l : List (String × Option ℚ)) (k : String) :
    (l.lookup k).isSome = true ↔ k ∈ l.map Prod.fst := by
  induction l with
  | nil => simp [List.lookup]
  | cons p l ih =>
    rcases p with ⟨a, b⟩
    simp only [List.lookup, List.map_cons, List.mem_cons]
    cases hxa : (k == a)
    · have hne : k ≠ a := by simpa using hxa
      simp [ih, hne]
    · have heq : k = a := by simpa using hxa
      simp [heq]

theorem buildDict_keys_mem (rows : List (String × Option ℚ)) (k : String) :
    k ∈ (buildDict rows).map Prod.fst ↔ k ∈ rows.map Prod.fst := by
  rw [← lookup_isSome_iff, buildDict_lookup, lookup_isSome_iff, List.map_reverse,
    List.mem_reverse]

theorem planRowsAux_buckets_sublist (amount T : ℚ) (l : List (String × Option ℚ)) :
    ((planRowsAux amount T l).map PlanRow.bucket).Sublist (l.map Prod.fst) := by
  induction l with
  | nil => simp [planRowsAux]
  | cons p rest ih =>
    rcases p with ⟨b, _ | pct⟩
    · simpa [planRowsAux] using ih.cons b
    · simpa [planRowsAux, mkPlanRow] using ih.cons₂ b

theorem planRowsAux_buckets_of_all_some (amount T : ℚ) (l : List (String × Option ℚ))
    (h : ∀ p ∈ l, p.2 ≠ none) :
    (planRowsAux amount T l).map PlanRow.bucket = l.map Prod.fst := by
  induction l with
  | nil => rfl
  | cons p rest ih =>
    rcases p with ⟨b, _ | pct⟩
    · exact absurd rfl (h (b, none) (List.mem_cons_self _ _))
    · simp only [planRowsAux, List.map_cons, mkPlanRow]
      rw [ih (fun q hq => h q (List.mem_cons_of_mem _ hq))]

theorem lookup_of_mem_nodup (l : List (String × Option ℚ))
    (hl : (l.map Prod.fst).Nodup) (p : String × Option ℚ) (hp : p ∈ l) :
    l.lookup p.1 = some p.2 := by
  induction l with
  | nil => cases hp
  | cons q l ih =>
    rcases List.mem_cons.mp hp with rfl | hp
    · simp [List.lookup]
    · have hqp : q.1 ≠ p.1 := by
        intro hEq
        have : p.1 ∈ l.map Prod.fst := List.mem_map.mpr ⟨p, hp, rfl⟩
        rw [← hEq] at this
        exact (List.nodup_cons.mp (by simpa using hl)).1 this
      simp only [List.lookup]
      rw [show (p.1 == q.1) = false from beq_eq_false_iff_ne.mpr (Ne.symm hqp)]
      exact ih (List.nodup_cons.mp (by simpa using hl)).2 hp

theorem mem_of_lookup_eq_some (l : List (String × Option ℚ)) (k : String)
    (v : Option ℚ) (h : l.lookup k = some v) : (k, v) ∈ l := by
  induction l with
  | nil => simp [List.lookup] at h
  | cons q l ih =>
    rcases q with ⟨a, b⟩
    simp only [List.lookup] at h
    cases hxa : (k == a)
    · rw [hxa] at h
      exact List.mem_cons_of_mem _ (ih h)
    · rw [hxa] at h
      have heq : k = a := by simpa using hxa
      have hv : b = v := by simpa using h
      subst heq
      subst hv
      exact List.mem_cons_self _ _

theorem buildDict_all_some (rows : List (String × Option ℚ))
    (h : ∀ p ∈ rows, p.2 ≠ none) : ∀ p ∈ buildDict rows, p.2 ≠ none := by
  intro p hp
  have hlook : (buildDict rows).lookup p.1 = some p.2 :=
    lookup_of_mem_nodup _ (buildDict_nodupKeys rows) p hp
  rw [buildDict_lookup] at hlook
  have hmem : (p.1, p.2) ∈ rows.reverse := mem_of_lookup_eq_some _ _ _ hlook
  exact h (p.1, p.2) (List.mem_reverse.mp hmem)

/-! ## Claim C10: duplicate bucket labels collapse, last occurrence wins -/

/-- C10: building the bucket dict from the ordered editor rows collapses
duplicate labels — the dict holds exactly one entry per distinct label,
each label's value is the one of its last occurrence (so only that percent
contributes to the raw-percentage sum and to the plan, both of which are
computed from the dict), and when every row carries a percent the plan
output holds exactly one row per distinct input label. -/
theorem duplicate_labels_collapse (rows : List (String × Option ℚ)) (amount : ℚ) :
    ((buildDict rows).map Prod.fst).Nodup ∧
    (∀ k, (buildDict rows).lookup k = rows.reverse.lookup k) ∧
    (∀ k, k ∈ (buildDict rows).map Prod.fst ↔ k ∈ rows.map Prod.fst) ∧
    ((planRows amount (buildDict rows)).map PlanRow.bucket).Nodup ∧
    ((∀ p ∈ rows, p.2 ≠ none) →
      (planRows amount (buildDict rows)).map PlanRow.bucket =
        (buildDict rows).map Prod.fst ∧
      (∀ k, k ∈ (planRows amount (buildDict rows)).map PlanRow.bucket ↔
        k ∈ rows.map Prod.fst)) := by
  refine ⟨buildDict_nodupKeys rows, buildDict_lookup rows,
    buildDict_keys_mem rows,
    ((planRowsAux_buckets_sublist amount _ (buildDict rows)).nodup
      (buildDict_nodupKeys rows)),
    fun hall => ?_⟩
  have hbuckets : (planRows amount (buildDict rows)).map PlanRow.bucket =
      (buildDict rows).map Prod.fst :=
    planRowsAux_buckets_of_all_some amount _ (buildDict rows)
      (buildDict_all_some rows hall)
  exact ⟨hbuckets, fun k => by rw [hbuckets]; exact buildDict_keys_mem rows k⟩

/-- Demonstration editor rows holding the label "A" twice. -/
def demoDupRows : List (String × Option ℚ) :=
  [("A", some 30), ("B", some 50), ("A", some 20)]

/-- Witness for C10 at rows holding the label "A" twice: the dict keeps one
"A" entry, its percent is the later 20, and the plan has one row per
distinct label. -/
theorem duplicate_labels_collapse_witness :
    ((buildDict demoDupRows).map Prod.fst).Nodup ∧
    (∀ k, (buildDict demoDupRows).lookup k = demoDupRows.reverse.lookup k) ∧
    (∀ k, k ∈ (buildDict demoDupRows).map Prod.fst ↔ k ∈ demoDupRows.map Prod.fst) ∧
    ((planRows 250 (buildDict demoDupRows)).map PlanRow.bucket).Nodup ∧
    ((∀ p ∈ demoDupRows, p.2 ≠ none) →
      (planRows 250 (buildDict demoDupRows)).map PlanRow.bucket =
        (buildDict demoDupRows).map Prod.fst ∧
      (∀ k, k ∈ (planRows 250 (buildDict demoDupRows)).map PlanRow.bucket ↔
        k ∈ demoDupRows.map Prod.fst)) :=
  duplicate_labels_collapse demoDupRows 250

end WiseDecision
